import Mathlib

/-!
A shallow embedding of the pitch codec and pitch algebra of the `tonal`
music-theory library (src/dist/tonal.js), together with theorems checking
its natural-language specification against the code.

Conventions used for translating the JavaScript source:

* JS `Math.floor(x / n)` applied to integers with `n > 0` is floor
  division, which coincides with Lean's Euclidean division `/` on `Int`
  (the remainder of `/` is non-negative, so the quotient is the floor).
* JS `%` is the truncated remainder.  The only place the source applies it
  to a possibly negative operand (`unaltered`) immediately normalizes a
  negative result by adding the modulus, so the composite function equals
  Lean's Euclidean `%` on `Int`; the translation keeps the source's
  normalizing branch verbatim.  All other uses (`toLetter`, `fromMidi`)
  only ever receive non-negative operands on the paths modelled here,
  where the two remainders agree.
* `undefined`/`null` arguments and results are modelled with `Option`.
* The external string grammars (`note-parser`, `interval-notation`) are
  not part of this repository; they are modelled from the specification
  where a claim needs them, and each such definition is marked
  `Modelled from the spec`.
-/

namespace Tonal

/-- The `['tnl', ...]` array of the source (lines 48-81): a pitch class
`['tnl', f]`, a note pitch `['tnl', f, o]`, or an interval
`['tnl', f, o, d]`. -/
inductive Pitch where
  | pc (f : Int)
  | note (f o : Int)
  | ivl (f o d : Int)
deriving DecidableEq

/-- `p[1]`, the fifths coordinate of a pitch. -/
def fifthsOf : Pitch → Int
  | .pc f => f
  | .note f _ => f
  | .ivl f _ _ => f

/-- `p[2]`, the encoded-octave coordinate.  `0` stands in for the
`undefined` field of a pitch class; the source never reads `p[2]` of a
pitch class on the code paths modelled here. -/
def octvOf : Pitch → Int
  | .pc _ => 0
  | .note _ o => o
  | .ivl _ o _ => o

/-- `FIFTHS` (source line 131): circle-of-fifths offset of each letter. -/
def FIFTHS : List Int := [0, 2, 4, -1, 1, 3, 5]

/-- `encPC` (source line 134). -/
def encPC (step alt : Int) : Int := FIFTHS.getD step.toNat 0 + 7 * alt

/-- `fOcts` (source line 137): `Math.floor(f * 7 / 12)`. -/
def fOcts (f : Int) : Int := f * 7 / 12

/-- `FIFTH_OCTS` (source line 139). -/
def FIFTH_OCTS : List Int := FIFTHS.map fOcts

/-- `encOct` (source line 142). -/
def encOct (step alt oct : Int) : Int :=
  oct - FIFTH_OCTS.getD step.toNat 0 - 4 * alt

/-- `encDir` (source line 145). -/
def encDir (n : Int) : Int := if n < 0 then -1 else 1

/-- `calcDir` (source line 70). -/
def calcDir (f o : Int) : Int := encDir (7 * f + 12 * o)

/-- `ivlPitch` (source line 81): `['tnl', f, o, d || calcDir(f, o)]`.
A missing or zero (falsy) direction argument falls back to `calcDir`. -/
def ivlPitch (f o : Int) (d : Option Int) : Pitch :=
  match d with
  | some x => if x = 0 then .ivl f o (calcDir f o) else .ivl f o x
  | none => .ivl f o (calcDir f o)

/-- `encode` (source lines 159-174).  `alt` is always a number at every
call site modelled here, so the source's `alt || 0` is just `alt`. -/
def encode (step alt : Int) (oct dir : Option Int) : Option Pitch :=
  if step < 0 ∨ 6 < step then none
  else
    match oct, dir with
    | none, _ => some (.pc (encPC step alt))
    | some oct, none => some (.note (encPC step alt) (encOct step alt oct))
    | some oct, some dir =>
        some (ivlPitch (encDir dir * encPC step alt)
          (encDir dir * encOct step alt oct) (some (encDir dir)))

/-- `unaltered` (source lines 180-183); see the note on `%` above. -/
def unaltered (f : Int) : Int :=
  if (f + 1) % 7 < 0 then 7 + (f + 1) % 7 else (f + 1) % 7

/-- `STEPS` (source line 188): `'FCGDAEB'` step numbers. -/
def STEPS : List Int := [3, 0, 4, 1, 5, 2, 6]

/-- `decodeStep` (source line 185). -/
def decodeStep (f : Int) : Int := STEPS.getD (unaltered f).toNat 0

/-- `decodeAlt` (source line 186): `Math.floor((f + 1) / 7)`. -/
def decodeAlt (f : Int) : Int := (f + 1) / 7

/-- The record produced by `decode` (source line 198). -/
structure Props where
  step : Int
  alt : Int
  oct : Option Int
  dir : Option Int
deriving DecidableEq

/-- `decode` (source lines 194-199); `p[3] || null` maps a zero (falsy)
direction to `null`. -/
def decode : Pitch → Props
  | .pc f => ⟨decodeStep f, decodeAlt f, none, none⟩
  | .note f o =>
      ⟨decodeStep f, decodeAlt f,
        some (o + 4 * decodeAlt f + FIFTH_OCTS.getD (decodeStep f).toNat 0), none⟩
  | .ivl f o d =>
      ⟨decodeStep f, decodeAlt f,
        some (o + 4 * decodeAlt f + FIFTH_OCTS.getD (decodeStep f).toNat 0),
        if d = 0 then none else some d⟩

/-! ### String parsing (external grammars, modelled from the spec) -/

/-- Value of a decimal digit character, `none` otherwise. -/
def digitVal (c : Char) : Option Nat :=
  if '0' ≤ c ∧ c ≤ '9' then some (c.toNat - '0'.toNat) else none

/-- Accumulate decimal digits; fails on a non-digit. -/
def digitsToNatAux : Nat → List Char → Option Nat
  | acc, [] => some acc
  | acc, c :: cs =>
    match digitVal c with
    | some d => digitsToNatAux (acc * 10 + d) cs
    | none => none

/-- A non-empty all-digit run as a number, `none` otherwise. -/
def digitsToNatNE : List Char → Option Nat
  | [] => none
  | cs => digitsToNatAux 0 cs

/-- An optionally `-`-signed non-empty digit run as an integer. -/
def parseSignedInt : List Char → Option Int
  | '-' :: cs => (digitsToNatNE cs).map (fun n => -(n : Int))
  | cs => (digitsToNatNE cs).map (fun n => (n : Int))

/-- Modelled from the spec: step index (C=0 .. B=6) of a note letter; the
external grammar accepts both letter cases (spec §4.1 example list). -/
def letterStep (c : Char) : Option Int :=
  if c = 'C' ∨ c = 'c' then some 0
  else if c = 'D' ∨ c = 'd' then some 1
  else if c = 'E' ∨ c = 'e' then some 2
  else if c = 'F' ∨ c = 'f' then some 3
  else if c = 'G' ∨ c = 'g' then some 4
  else if c = 'A' ∨ c = 'a' then some 5
  else if c = 'B' ∨ c = 'b' then some 6
  else none

/-- Length of the leading run of `c`, with the unconsumed rest. -/
def countRun (c : Char) : List Char → Nat × List Char
  | [] => (0, [])
  | x :: xs =>
    if x = c then
      let r := countRun c xs
      (r.fst + 1, r.snd)
    else (0, x :: xs)

/-- Modelled from the spec (§6): the accidentals field, a run of `#` or a
run of `b`; returns the signed alteration and the unconsumed rest. -/
def parseAcc (cs : List Char) : Int × List Char :=
  match cs with
  | '#' :: _ =>
    let r := countRun '#' cs
    ((r.fst : Int), r.snd)
  | 'b' :: _ =>
    let r := countRun 'b' cs
    (-(r.fst : Int), r.snd)
  | _ => (0, cs)

/-- Modelled from the spec: the external note-name grammar
(`note-parser`), contract in §6: `Letter[Accidentals][Octave]` with
accidentals `b`/`#` repeated and a possibly negative decimal octave;
returns `{step, alt, oct}` fields or fails.  (The grammar's `x`
double-sharp shorthand is needed by no claim and is not modelled.) -/
def parseNoteFields (l : List Char) : Option (Int × Int × Option Int) :=
  match l with
  | [] => none
  | c :: cs =>
    match letterStep c with
    | none => none
    | some st =>
      let ar := parseAcc cs
      match ar.snd with
      | [] => some (st, ar.fst, none)
      | rest =>
        match parseSignedInt rest with
        | some n => some (st, ar.fst, some n)
        | none => none

/-- `parseNote` (source lines 220-223): parse the name, then
`encode(n.step, n.alt, n.oct)`.  The memoization cache (source lines
206-212) is semantically transparent and not modelled. -/
def parseNote (s : String) : Option Pitch :=
  match parseNoteFields s.toList with
  | some (st, al, oc) => encode st al oc none
  | none => none

/-- Modelled from the spec (§6 and glossary): `interval-notation`'s
perfectability predicate, `type(n) = 'P'` exactly for the
unison/fourth/fifth (and octave-shifted) numbers. -/
def ivlTypePerfect (n : Int) : Bool :=
  (n - 1) % 7 = 0 ∨ (n - 1) % 7 = 3 ∨ (n - 1) % 7 = 4

/-- Quality token of the interval shorthand grammar. -/
inductive Qual where
  | perf
  | maj
  | minr
  | aug (k : Nat)
  | dim (k : Nat)

/-- Modelled from the spec (§6): read one quality token
(`P` | `M` | `m` | `A`.. | `d`..) off the front. -/
def readQual : List Char → Option (Qual × List Char)
  | 'P' :: r => some (.perf, r)
  | 'M' :: r => some (.maj, r)
  | 'm' :: r => some (.minr, r)
  | 'A' :: r =>
    let k := countRun 'A' r
    some (.aug (k.fst + 1), k.snd)
  | 'd' :: r =>
    let k := countRun 'd' r
    some (.dim (k.fst + 1), k.snd)
  | _ => none

/-- Modelled from the spec (§6): alteration denoted by a quality token at
an interval number, `none` for an impossible pairing (`P2`, `M5`, ...). -/
def qualToAlt (q : Qual) (n : Int) : Option Int :=
  match q with
  | .perf => if ivlTypePerfect n then some 0 else none
  | .maj => if ivlTypePerfect n then none else some 0
  | .minr => if ivlTypePerfect n then none else some (-1)
  | .aug k => some (k : Int)
  | .dim k => if ivlTypePerfect n then some (-(k : Int)) else some (-(k : Int) - 1)

/-- The unsigned part of the interval shorthand: quality then number;
returns `(simple, alt, oct)`. -/
def parseIvlBody (l : List Char) : Option (Int × Int × Int) :=
  match readQual l with
  | none => none
  | some (q, r1) =>
    match digitsToNatNE r1 with
    | none => none
    | some n =>
      if n = 0 then none
      else
        match qualToAlt q (n : Int) with
        | none => none
        | some alt => some (((n : Int) - 1) % 7 + 1, alt, ((n : Int) - 1) / 7)

/-- Modelled from the spec: the external interval shorthand grammar
(`interval-notation`), contract in §6: an optional `-` sign, a quality
token, and an interval number ≥ 1 (quality-first, as in the spec's
examples `P8`, `M3`, `-M2`); returns the `{simple, alt, oct, dir}` fields
consumed by `parseIvl`. -/
def parseIvlFields (l : List Char) : Option (Int × Int × Int × Int) :=
  match l with
  | '-' :: r => (parseIvlBody r).map (fun t => (t.fst, t.snd.fst, t.snd.snd, -1))
  | r => (parseIvlBody r).map (fun t => (t.fst, t.snd.fst, t.snd.snd, 1))

/-- `parseIvl` (source lines 239-242): parse shorthand, then
`encode(i.simple - 1, i.alt, i.oct, i.dir)`. -/
def parseIvl (s : String) : Option Pitch :=
  match parseIvlFields s.toList with
  | some (si, al, oc, di) => encode (si - 1) al (some oc) (some di)
  | none => none

/-- `parsePitch` (source line 253): `parseNote(str) || parseIvl(str)`. -/
def parsePitch (s : String) : Option Pitch :=
  match parseNote s with
  | some p => some p
  | none => parseIvl s

/-! ### Rendering to strings -/

/-- The letters indexed by `toLetter`. -/
def LETTERS : List Char := ['C', 'D', 'E', 'F', 'G', 'A', 'B']

/-- `toLetter` (source line 263): `'CDEFGAB'[s % 7]` (the step is always
0..6 here, where JS truncated `%` agrees with `%`). -/
def toLetter (s : Int) : String := String.mk [LETTERS.getD ((s % 7).toNat) 'C']

/-- `fillStr` (source line 266): a character repeated `n` times. -/
def fillStr (c : Char) (n : Nat) : String := String.mk (List.replicate n c)

/-- `toAcc` (source line 275): `b` or `#` repeated `abs n` times. -/
def toAcc (n : Int) : String :=
  if n < 0 then fillStr 'b' (-n).toNat else fillStr '#' n.toNat

/-- `strNum` (source line 276): a number, or the empty string for
`null`. -/
def strNum : Option Int → String
  | none => ""
  | some n => toString n

/-- The rendering `toLetter(p.step) + toAcc(p.alt) + strNum(p.oct)` used
by `strNote` (source line 287). -/
def strNoteProps (p : Props) : String :=
  toLetter p.step ++ toAcc p.alt ++ strNum p.oct

/-- `strNote` (source lines 285-288): renders pitch classes and note
pitches; a pitch with a truthy direction yields `null`. -/
def strNote : Pitch → Option String
  | .pc f => some (strNoteProps (decode (.pc f)))
  | .note f o => some (strNoteProps (decode (.note f o)))
  | .ivl f o d =>
      if d = 0 then some (strNoteProps (decode (.ivl f o d))) else none

/-- `isAsc` (source line 291): `p.dir === 1`. -/
def isAsc (p : Props) : Bool := p.dir = some 1

/-- `isPerf` (source line 293): `ivlNttn.type(p.step + 1) === 'P'`. -/
def isPerf (p : Props) : Bool := ivlTypePerfect (p.step + 1)

/-- `calcNum` (source line 295).  An interval's decoded `oct` is always
present; `getD 0` unwraps it. -/
def calcNum (p : Props) : Int :=
  if isAsc p then p.step + 1 + 7 * p.oct.getD 0
  else (8 - p.step) - 7 * (p.oct.getD 0 + 1)

/-- `calcAlt` (source line 297). -/
def calcAlt (p : Props) : Int :=
  if isAsc p then p.alt
  else if isPerf p then -p.alt else -(p.alt + 1)

/-- Modelled from the spec (§4.3, §6): `interval-notation`'s quality
formatter `altToQ(num, alt)`: `P`/`M`/`m` for the basic qualities, `A`
repeated for augmented, `d` repeated for diminished, on the
perfectable/majorable axis given by the interval number. -/
def altToQ (num alt : Int) : String :=
  if ivlTypePerfect num then
    if alt = 0 then "P"
    else if 0 < alt then fillStr 'A' alt.toNat
    else fillStr 'd' (-alt).toNat
  else
    if alt = 0 then "M"
    else if alt = -1 then "m"
    else if 0 < alt then fillStr 'A' alt.toNat
    else fillStr 'd' (-(alt + 1)).toNat

/-- The rendering `p.dir * num + altToQ(num, calcAlt(p))` of `strIvl`
(source line 310); JS multiplies a `null` direction to 0, modelled by
`getD 0` (never reached from the library's own constructors). -/
def strIvlProps (p : Props) : String :=
  toString (p.dir.getD 0 * calcNum p) ++ altToQ (calcNum p) (calcAlt p)

/-- `strIvl` (source lines 306-311): renders interval pitches only. -/
def strIvl : Pitch → Option String
  | .ivl f o d => some (strIvlProps (decode (.ivl f o d)))
  | _ => none

/-- `strPitch` (source line 313): `p[3] ? strIvl(p) : strNote(p)`. -/
def strPitch : Pitch → Option String
  | .ivl f o d => if d = 0 then strNote (.ivl f o d) else strIvl (.ivl f o d)
  | p => strNote p

/-! ### Pitch algebra -/

/-- Same array arity, the `a.length !== b.length` test of `substr`. -/
def sameVariant : Pitch → Pitch → Bool
  | .pc _, .pc _ => true
  | .note _ _, .note _ _ => true
  | .ivl _ _ _, .ivl _ _ _ => true
  | _, _ => false

/-- `substr` (source lines 536-541): subtract two pitches; `null` when
the arities differ. -/
def substr : Pitch → Pitch → Option Pitch
  | .pc fa, .pc fb => some (ivlPitch (fb - fa) (-(fOcts (fb - fa))) (some 1))
  | .note fa oa, .note fb ob => some (ivlPitch (fb - fa) (ob - oa) none)
  | .ivl fa oa _, .ivl fb ob _ => some (ivlPitch (fb - fa) (ob - oa) none)
  | _, _ => none

/-- `trBy` (source lines 505-512).  The first argument is the interval
(`transpose` only calls it so); the last arm builds the raw array
`['tnl', f, o, calcDir(f, o)]` exactly as line 511 does. -/
def trBy (i : Pitch) (p : Option Pitch) : Option Pitch :=
  match p with
  | none => none
  | some (.pc pf) => some (.pc (fifthsOf i + pf))
  | some (.note pf po) => some (.note (fifthsOf i + pf) (octvOf i + po))
  | some (.ivl pf po _) =>
      some (.ivl (fifthsOf i + pf) (octvOf i + po)
        (calcDir (fifthsOf i + pf) (octvOf i + po)))

/-- The pitch-level dispatch of `transpose` (source lines 521-523):
`isIvlPitch(pa) ? trBy(pa, pb) : isIvlPitch(pb) ? trBy(pb, pa) : null`.
The source then renders the result with `toPitchStr`; see
`transposeJS`. -/
def transposeP : Option Pitch → Option Pitch → Option Pitch
  | some (Pitch.ivl f o d), pb => trBy (Pitch.ivl f o d) pb
  | pa, some (Pitch.ivl f o d) => trBy (Pitch.ivl f o d) pa
  | _, _ => none

/-- the core of `simplify` (source lines 392-397).  On a non-interval
array the source reads the `undefined` `i[3]` and produces garbage; that
arm is never reached through `ivlFn` and is modelled as the identity. -/
def simplifyP : Pitch → Pitch
  | .ivl fi oi di =>
      ivlPitch fi
        (-di * (FIFTH_OCTS.getD (decodeStep (di * fi)).toNat 0
          + 4 * decodeAlt (di * fi))) (some di)
  | p => p

/-- the core of `simplifyAsc` (source lines 399-402):
`s[3] === 1 ? s : ivlPitch(s[1], s[2] + 1, 1)` for `s = simplify(i)`. -/
def simplifyAscP (i : Pitch) : Pitch :=
  match simplifyP i with
  | .ivl f o d => if d = 1 then .ivl f o d else ivlPitch f (o + 1) (some 1)
  | p => p

/-- `simplify` on a string, through the `ivlFn` decorator (source lines
328-339): parse, apply, render with `toIvlStr`. -/
def simplifyStr (s : String) : Option String :=
  match parseIvl s with
  | some p => strIvl (simplifyP p)
  | none => none

/-- `simplifyAsc` on a string, through the `ivlFn` decorator. -/
def simplifyAscStr (s : String) : Option String :=
  match parseIvl s with
  | some p => strIvl (simplifyAscP p)
  | none => none

/-- `height` (source line 419): `p[1] * 7 + 12 * p[2]`. -/
def height (p : Pitch) : Int := fifthsOf p * 7 + 12 * octvOf p

/-- the core of `chroma` (source lines 375-377):
`7 * n[1] - 12 * fOcts(n[1])`. -/
def chromaP (p : Pitch) : Int := 7 * fifthsOf p - 12 * fOcts (fifthsOf p)

/-! ### JS-level values, MIDI bridge, distance/transpose with rendering -/

/-- A JavaScript argument value as the library's entry points see it: a
number, a string, or a pitch array. -/
inductive JSVal where
  | num (n : Int)
  | str (s : String)
  | pitch (p : Pitch)
deriving DecidableEq

/-- Modelled from JS semantics: numeric coercion `+val` / the numeric
comparisons of `isMidi`, restricted to decimal integer numerals.  JS
`Number` of the empty string is 0; a non-numeral is NaN (`none`). -/
def strToNum (s : String) : Option Int :=
  match s.toList with
  | [] => some 0
  | '-' :: cs => (digitsToNatNE cs).map (fun n => -(n : Int))
  | cs => (digitsToNatNE cs).map (fun n => (n : Int))

/-- The numeric value of a JS value, `none` for NaN.  An array coerces
through its string form, never a numeral. -/
def jsToNumber : JSVal → Option Int
  | .num n => some n
  | .str s => strToNum s
  | .pitch _ => none

/-- `asNote` (source line 319): a pitch array passes through unchanged
(even an interval), anything else goes to `parseNote` (which fails on
non-strings). -/
def asNoteVal : JSVal → Option Pitch
  | .pitch p => some p
  | .str s => parseNote s
  | .num _ => none

/-- `asPitch` (source line 321). -/
def asPitchVal : JSVal → Option Pitch
  | .pitch p => some p
  | .str s => parsePitch s
  | .num _ => none

/-- `isMidi` (source line 433): a non-array value whose numeric coercion
lies in `[0, 128)`. -/
def isMidiB (v : JSVal) : Bool :=
  match v with
  | .pitch _ => false
  | _ =>
    match jsToNumber v with
    | some n => decide (0 ≤ n ∧ n < 128)
    | none => false

/-- `midi` (source lines 446-451): `hasOct(asNote(val)) ? height + 12 :
isMidi(val) ? +val : null`.  `hasOct` accepts any pitch with a numeric
`p[2]`, i.e. note pitches and intervals. -/
def midiJS (v : JSVal) : Option Int :=
  match asNoteVal v with
  | some (Pitch.note f o) => some (height (Pitch.note f o) + 12)
  | some (Pitch.ivl f o d) => some (height (Pitch.ivl f o d) + 12)
  | _ => if isMidiB v then jsToNumber v else none

/-- `PCS` (source line 453): the flat-spelling pitch-class table. -/
def PCS : List String :=
  ["C", "Db", "D", "Eb", "E", "F", "Gb", "G", "Ab", "A", "Bb", "B"]

/-- `fromMidi` (source lines 463-467): `PCS[m % 12] + (floor(m / 12) - 1)`
(on the claims' domain `m ≥ 0`, where JS truncated `%` agrees with
`%`). -/
def fromMidi (m : Int) : String :=
  PCS.getD ((m % 12).toNat) "" ++ toString (m / 12 - 1)

/-- `chroma` (source lines 375-377) through the `pitchFn` decorator
(source lines 328-340): an array input returns the number directly; a
string input parses, computes, and returns the number (`toPitchStr` of a
non-pitch value is the identity); a number input fails to parse. -/
def chromaJS : JSVal → Option Int
  | .pitch p => some (chromaP p)
  | .str s => (parsePitch s).map chromaP
  | .num _ => none

/-- A JS result of `distance`/`transpose`: a string, a pitch array, or
`null`. -/
inductive RVal where
  | str (s : String)
  | pit (p : Pitch)
  | nil
deriving DecidableEq

/-- `toIvlStr` (source line 324) on a possibly-`null` pitch: `null`
passes through, a pitch is rendered with `strIvl`. -/
def toIvlStrR : Option Pitch → RVal
  | none => .nil
  | some p =>
    match strIvl p with
    | some s => .str s
    | none => .nil

/-- `toPitchStr` (source line 325) on a possibly-`null` pitch. -/
def toPitchStrR : Option Pitch → RVal
  | none => .nil
  | some p =>
    match strPitch p with
    | some s => .str s
    | none => .nil

/-- `isPitch(v)` on a JS value: only arrays are pitches. -/
def isPitchVal : JSVal → Bool
  | .pitch _ => true
  | _ => false

/-- `substr` as `distance` actually invokes it (source line 561), with
possibly-`null` arguments: the very first statement reads `a.length`
and `b.length`, so a `null` operand raises a TypeError instead of
returning `null`.  The fault is modelled as `Except.error`. -/
def substrJS : Option Pitch → Option Pitch → Except String (Option Pitch)
  | none, _ => .error "TypeError: Cannot read property length of null"
  | some _, none => .error "TypeError: Cannot read property length of null"
  | some a, some b => .ok (substr a b)

/-- `distance` (source lines 557-564): parse both arguments, subtract,
and render unless both inputs were already arrays. -/
def distanceJS (a b : JSVal) : Except String RVal :=
  match substrJS (asPitchVal a) (asPitchVal b) with
  | .error e => .error e
  | .ok i =>
    if isPitchVal a && isPitchVal b then
      .ok (match i with
        | some p => .pit p
        | none => .nil)
    else .ok (toIvlStrR i)

/-- `transpose` (source lines 518-525): parse both arguments, dispatch
through `trBy` (which guards `null`), render with `toPitchStr`. -/
def transposeJS (a b : JSVal) : RVal :=
  toPitchStrR (transposeP (asPitchVal a) (asPitchVal b))

/-! ### Spec-side formulas (for the refinement claims) -/

/-- The interval-number formula exactly as the spec states it:
ascending `step + 1 + 7 * oct`, descending `(8 − step) − 7 * (oct + 1)`. -/
def specIvlNum (p : Props) (d : Int) : Int :=
  if d = 1 then p.step + 1 + 7 * p.oct.getD 0
  else (8 - p.step) - 7 * (p.oct.getD 0 + 1)

/-- The rendered-alteration formula exactly as the spec states it:
ascending `alt`; descending `-alt` for a perfectable decoded step and
`-(alt + 1)` otherwise. -/
def specIvlAlt (p : Props) (d : Int) : Int :=
  if d = 1 then p.alt
  else if ivlTypePerfect (p.step + 1) then -p.alt else -(p.alt + 1)

/-! ## Theorems -/

/-! ### Arithmetic facts about the codec -/

theorem unaltered_eq (f : Int) : unaltered f = (f + 1) % 7 := by
  unfold unaltered
  have h : 0 ≤ (f + 1) % 7 := Int.emod_nonneg _ (by norm_num)
  rw [if_neg (by omega)]

theorem decodeStep_encPC (s a : Int) (h0 : 0 ≤ s) (h6 : s ≤ 6) :
    decodeStep (encPC s a) = s := by
  interval_cases s
  · show STEPS.getD (unaltered (0 + 7 * a)).toNat 0 = 0
    rw [unaltered_eq, show (0 + 7 * a + 1) % 7 = 1 by omega]; rfl
  · show STEPS.getD (unaltered (2 + 7 * a)).toNat 0 = 1
    rw [unaltered_eq, show (2 + 7 * a + 1) % 7 = 3 by omega]; rfl
  · show STEPS.getD (unaltered (4 + 7 * a)).toNat 0 = 2
    rw [unaltered_eq, show (4 + 7 * a + 1) % 7 = 5 by omega]; rfl
  · show STEPS.getD (unaltered (-1 + 7 * a)).toNat 0 = 3
    rw [unaltered_eq, show (-1 + 7 * a + 1) % 7 = 0 by omega]; rfl
  · show STEPS.getD (unaltered (1 + 7 * a)).toNat 0 = 4
    rw [unaltered_eq, show (1 + 7 * a + 1) % 7 = 2 by omega]; rfl
  · show STEPS.getD (unaltered (3 + 7 * a)).toNat 0 = 5
    rw [unaltered_eq, show (3 + 7 * a + 1) % 7 = 4 by omega]; rfl
  · show STEPS.getD (unaltered (5 + 7 * a)).toNat 0 = 6
    rw [unaltered_eq, show (5 + 7 * a + 1) % 7 = 6 by omega]; rfl

theorem decodeAlt_encPC (s a : Int) (h0 : 0 ≤ s) (h6 : s ≤ 6) :
    decodeAlt (encPC s a) = a := by
  interval_cases s
  · show (0 + 7 * a + 1) / 7 = a; omega
  · show (2 + 7 * a + 1) / 7 = a; omega
  · show (4 + 7 * a + 1) / 7 = a; omega
  · show (-1 + 7 * a + 1) / 7 = a; omega
  · show (1 + 7 * a + 1) / 7 = a; omega
  · show (3 + 7 * a + 1) / 7 = a; omega
  · show (5 + 7 * a + 1) / 7 = a; omega

theorem encode_note_eq (step alt oct : Int) (h0 : 0 ≤ step) (h6 : step ≤ 6) :
    encode step alt (some oct) none =
      some (.note (encPC step alt) (encOct step alt oct)) := by
  unfold encode; rw [if_neg (by omega)]

theorem encode_ivl_eq (step alt oct dir : Int) (h0 : 0 ≤ step) (h6 : step ≤ 6) :
    encode step alt (some oct) (some dir) =
      some (ivlPitch (encDir dir * encPC step alt)
        (encDir dir * encOct step alt oct) (some (encDir dir))) := by
  unfold encode; rw [if_neg (by omega)]

/-! ### C1, C2 -/

/-- C1: for every step in 0..6, alt in -4..4 and oct in -2..10, decoding
the encoding of those fields without a direction gives back exactly the
same fields, with a `null` direction. -/
theorem decode_encode_note_roundtrip (step alt oct : Int)
    (h0 : 0 ≤ step) (h6 : step ≤ 6) (ha1 : -4 ≤ alt) (ha2 : alt ≤ 4)
    (ho1 : -2 ≤ oct) (ho2 : oct ≤ 10) :
    (encode step alt (some oct) none).map decode =
      some ⟨step, alt, some oct, none⟩ := by
  rw [encode_note_eq step alt oct h0 h6, Option.map_some']
  simp only [decode]
  rw [decodeStep_encPC step alt h0 h6, decodeAlt_encPC step alt h0 h6]
  have hoct : encOct step alt oct + 4 * alt + FIFTH_OCTS.getD step.toNat 0 = oct := by
    unfold encOct; ring
  rw [hoct]

theorem decode_encode_note_roundtrip_witness :
    (encode 3 (-2) (some 5) none).map decode = some ⟨3, -2, some 5, none⟩ :=
  decode_encode_note_roundtrip 3 (-2) 5 (by norm_num) (by norm_num)
    (by norm_num) (by norm_num) (by norm_num) (by norm_num)

/-- C2 counterexample: the claimed round trip fails for a descending
interval.  Encoding step 1, alt 0, oct 0 with dir -1 (a descending major
second) decodes to step 6, alt -1, oct -1 (the properties of the negated
encoding), not to the original fields. -/
theorem decode_encode_descending_counterexample :
    (encode 1 0 (some 0) (some (-1))).map decode =
        some ⟨6, -1, some (-1), some (-1)⟩ ∧
    (encode 1 0 (some 0) (some (-1))).map decode ≠
        some ⟨1, 0, some 0, some (-1)⟩ := by
  exact ⟨by decide, by decide⟩

/-- C2 (amended): the round trip `decode (encode step alt oct dir) =
{step, alt, oct, dir}` holds for every step in 0..6 and all integers alt
and oct when `dir = 1`; for `dir = -1` the encoder stores the negated
fifths/octave pair, and `decode` returns the decoded properties of that
negation rather than the original fields. -/
theorem decode_encode_ascending_roundtrip (step alt oct : Int)
    (h0 : 0 ≤ step) (h6 : step ≤ 6) :
    (encode step alt (some oct) (some 1)).map decode =
      some ⟨step, alt, some oct, some 1⟩ := by
  rw [encode_ivl_eq step alt oct 1 h0 h6, Option.map_some']
  have hd : encDir 1 = 1 := rfl
  rw [hd, one_mul, one_mul]
  refine congrArg some ?_
  simp only [ivlPitch]
  rw [if_neg (by norm_num : ¬(1 : Int) = 0)]
  simp only [decode]
  rw [decodeStep_encPC step alt h0 h6, decodeAlt_encPC step alt h0 h6]
  have hoct : encOct step alt oct + 4 * alt + FIFTH_OCTS.getD step.toNat 0 = oct := by
    unfold encOct; ring
  rw [hoct]
  norm_num

theorem decode_encode_ascending_roundtrip_witness :
    (encode 4 3 (some (-7)) (some 1)).map decode = some ⟨4, 3, some (-7), some 1⟩ :=
  decode_encode_ascending_roundtrip 4 3 (-7) (by norm_num) (by norm_num)

/-! ### C4 -/

/-- C4: for every two pitch classes, `substr` (the pitch-class branch of
`distance`) is the interval whose fifths are `fb - fa` and whose encoded
octave is `-fOcts (fb - fa)`, and it always decodes with direction 1,
in either argument order. -/
theorem distance_pc_ascending (fa fb : Int) :
    substr (.pc fa) (.pc fb) = some (.ivl (fb - fa) (-(fOcts (fb - fa))) 1) ∧
    (decode (.ivl (fb - fa) (-(fOcts (fb - fa))) 1)).dir = some 1 := by
  constructor
  · simp [substr, ivlPitch]
  · simp [decode]

/-! ### C3 -/

/-- C3 counterexample: for the valid interval pitches `a` = ascending
unison and `b = encode(0, 0, 0, -1)` (a descending unison),
`transpose(a, distance(a, b))` yields the ascending unison again, not
`b`: `trBy` recomputes the direction as `calcDir 0 0 = 1`, overwriting
`b`'s stored descending direction. -/
theorem transpose_distance_interval_counterexample :
    encode 0 0 (some 0) (some (-1)) = some (Pitch.ivl 0 0 (-1)) ∧
    transposeP (some (Pitch.ivl 0 0 1))
        (substr (Pitch.ivl 0 0 1) (Pitch.ivl 0 0 (-1))) =
      some (Pitch.ivl 0 0 1) ∧
    some (Pitch.ivl 0 0 1) ≠ some (Pitch.ivl 0 0 (-1)) := by
  exact ⟨by decide, by decide, by decide⟩

/-- C3 (amended): `transpose(a, distance(a, b)) = b` holds for all valid
pitches of matching arity — unconditionally when both are pitch classes
or both are note pitches; when both are intervals it holds provided `b`'s
stored direction agrees with the direction `calcDir` derives from `b`'s
own fifths/octave pair (the sign of `b`'s height).  The proviso does not
come for free: valid intervals violate it — e.g. a descending unison
(stored direction -1, derived direction 1), or the diminished unison
`d1`, whose parse is `ivl (-7) 4 1` (stored direction 1, height -1,
derived direction -1) — and for those `trBy` returns the interval
carrying the derived direction instead of `b`. -/
theorem transpose_distance_inverse (a b : Pitch)
    (hvar : sameVariant a b = true)
    (hdir : ∀ fb ob db, b = Pitch.ivl fb ob db → db = calcDir fb ob) :
    transposeP (some a) (substr a b) = some b := by
  cases a with
  | pc fa =>
    cases b with
    | pc fb =>
      simp only [substr, ivlPitch]
      rw [if_neg (by norm_num : ¬(1 : Int) = 0)]
      simp only [transposeP, trBy, fifthsOf]
      rw [show fb - fa + fa = fb by ring]
    | note fb ob => simp [sameVariant] at hvar
    | ivl fb ob db => simp [sameVariant] at hvar
  | note fa oa =>
    cases b with
    | pc fb => simp [sameVariant] at hvar
    | note fb ob =>
      simp only [substr, ivlPitch, transposeP, trBy, fifthsOf, octvOf]
      rw [show fb - fa + fa = fb by ring, show ob - oa + oa = ob by ring]
    | ivl fb ob db => simp [sameVariant] at hvar
  | ivl fa oa da =>
    cases b with
    | pc fb => simp [sameVariant] at hvar
    | note fb ob => simp [sameVariant] at hvar
    | ivl fb ob db =>
      have hdb : db = calcDir fb ob := hdir fb ob db rfl
      simp only [substr, ivlPitch, transposeP, trBy, fifthsOf, octvOf]
      rw [show fa + (fb - fa) = fb by ring, show oa + (ob - oa) = ob by ring, ← hdb]

theorem transpose_distance_inverse_witness :
    transposeP (some (Pitch.pc 1)) (substr (Pitch.pc 1) (Pitch.pc 4)) =
      some (Pitch.pc 4) :=
  transpose_distance_inverse (Pitch.pc 1) (Pitch.pc 4) (by decide)
    (fun fb ob db h => Pitch.noConfusion h)

/-! ### C5 -/

/-- C5: an unparseable string does not make `distance` return `null`: the
unguarded `a.length` read in `substr` (source line 537) faults on the
`null` parse result, while `transpose` — whose `trBy` does guard `null` —
returns `null` as the spec describes.  This exhibits the
claimed-impossible thrown fault on invalid musical input. -/
theorem distance_throws_on_unparseable :
    parsePitch "nonsense" = none ∧
    distanceJS (JSVal.str "nonsense") (JSVal.str "C2") =
      Except.error "TypeError: Cannot read property length of null" ∧
    transposeJS (JSVal.str "nonsense") (JSVal.str "P5") = RVal.nil ∧
    transposeJS (JSVal.str "C4") (JSVal.str "nonsense") = RVal.nil := by
  exact ⟨rfl, rfl, rfl, rfl⟩

/-! ### C6 -/

/-- C6 counterexample: `midi` applied to a valid interval pitch (the
parse of `'P5'`), a value that neither is nor parses to a note pitch with
octave and is not an integer, returns `height + 12 = 19` instead of the
claimed `null`: the guard `hasOct` accepts intervals as well. -/
theorem midi_interval_counterexample :
    parseIvl "P5" = some (Pitch.ivl 1 0 1) ∧
    midiJS (JSVal.pitch (Pitch.ivl 1 0 1)) = some 19 := by
  exact ⟨rfl, rfl⟩

/-- C6 (amended): `midi(v)` returns `height + 12` when `v` is, or parses
to, any pitch carrying an octave (a note pitch or an interval);
otherwise, when `v` coerces to a number in `[0, 128)` (an integer, or a
numeral string), that number is returned; in every other case the result
is `null`. -/
theorem midi_characterization (v : JSVal) :
    midiJS v =
      match asNoteVal v with
      | some (Pitch.note f o) => some (f * 7 + 12 * o + 12)
      | some (Pitch.ivl f o _) => some (f * 7 + 12 * o + 12)
      | _ =>
        match jsToNumber v with
        | some n => if 0 ≤ n ∧ n < 128 then some n else none
        | none => none := by
  cases v with
  | num n =>
    by_cases h : 0 ≤ n ∧ n < 128 <;>
      simp [midiJS, asNoteVal, isMidiB, jsToNumber, h]
  | pitch p => cases p <;> rfl
  | str s =>
    rcases hp : parseNote s with _ | p
    · rcases hn : strToNum s with _ | n
      · simp [midiJS, asNoteVal, isMidiB, jsToNumber, hp, hn]
      · by_cases h : 0 ≤ n ∧ n < 128 <;>
          simp [midiJS, asNoteVal, isMidiB, jsToNumber, hp, hn, h]
    · cases p with
      | pc f =>
        rcases hn : strToNum s with _ | n
        · simp [midiJS, asNoteVal, isMidiB, jsToNumber, hp, hn]
        · by_cases h : 0 ≤ n ∧ n < 128 <;>
            simp [midiJS, asNoteVal, isMidiB, jsToNumber, hp, hn, h]
      | note f o => simp [midiJS, asNoteVal, hp, height, fifthsOf, octvOf]
      | ivl f o d => simp [midiJS, asNoteVal, hp, height, fifthsOf, octvOf]

/-! ### C7 -/

/-- C7: for every midi number 0..127, converting to a (flat-spelled) note
name with `fromMidi` and parsing back with `midi` is the identity. -/
theorem midi_fromMidi_roundtrip :
    ∀ m : Nat, m < 128 → midiJS (JSVal.str (fromMidi (m : Int))) = some (m : Int) := by
  decide

theorem midi_fromMidi_roundtrip_witness :
    midiJS (JSVal.str (fromMidi (60 : Int))) = some 60 :=
  midi_fromMidi_roundtrip 60 (by norm_num)

/-! ### C8 -/

/-- C8: `strIvl` renders an interval as `dir * num` followed by the
quality token for `(num, alt)`, where `num` and the rendered alteration
are exactly the spec's formulas on the decoded properties: ascending
`num = step + 1 + 7*oct` with `alt` unchanged; descending
`num = (8 - step) - 7*(oct + 1)` with alteration `-alt` for a
perfectable decoded step and `-(alt + 1)` otherwise. -/
theorem strIvl_spec_formulas (f o d : Int) (hd : d = 1 ∨ d = -1) :
    strIvl (Pitch.ivl f o d) =
      some (toString (d * specIvlNum (decode (Pitch.ivl f o d)) d) ++
        altToQ (specIvlNum (decode (Pitch.ivl f o d)) d)
          (specIvlAlt (decode (Pitch.ivl f o d)) d)) := by
  rcases hd with rfl | rfl
  · simp [strIvl, strIvlProps, calcNum, calcAlt, isAsc, isPerf, decode,
      specIvlNum, specIvlAlt]
  · simp [strIvl, strIvlProps, calcNum, calcAlt, isAsc, isPerf, decode,
      specIvlNum, specIvlAlt]

theorem strIvl_spec_formulas_witness :
    strIvl (Pitch.ivl (-2) 1 (-1)) = some "-2M" := by
  rw [strIvl_spec_formulas (-2) 1 (-1) (Or.inr rfl)]
  rfl

/-! ### C9 -/

/-- C9 counterexample: `simplify('M9')` is the string `'2M'` — the
source's `strIvl` (line 310) renders the number before the quality — and
not `'M2'` as the claim spells it. -/
theorem simplify_M9_counterexample :
    simplifyStr "M9" = some "2M" ∧ simplifyStr "M9" ≠ some "M2" := by
  exact ⟨rfl, by decide⟩

/-- C9 (amended): `simplify` keeps the interval's fifths and its
direction, and the direction-stripped decoding of the result has encoded
octave contribution 0 — its decoded octave is exactly 0, the minimal
span — so a compound interval collapses to its simple form with the same
quality (step and alteration are functions of the unchanged fifths);
concretely `simplify('M9') = '2M'` (the major second the claim spells
`'M2'`), and `simplifyAsc('-M2') = '7m'`, the ascending interval one
octave above the descending simplified second. -/
theorem simplify_spec (f o d : Int) (hd : d = 1 ∨ d = -1) :
    fifthsOf (simplifyP (Pitch.ivl f o d)) = f ∧
    (∃ or, simplifyP (Pitch.ivl f o d) = Pitch.ivl f or d) ∧
    (decode (Pitch.note (d * fifthsOf (simplifyP (Pitch.ivl f o d)))
        (d * octvOf (simplifyP (Pitch.ivl f o d))))).oct = some 0 ∧
    simplifyStr "M9" = some "2M" ∧
    simplifyAscStr "-M2" = some "7m" := by
  have hd0 : ¬d = 0 := by rcases hd with rfl | rfl <;> norm_num
  have hsimp : simplifyP (Pitch.ivl f o d) =
      Pitch.ivl f (-d * (FIFTH_OCTS.getD (decodeStep (d * f)).toNat 0
        + 4 * decodeAlt (d * f))) d := by
    simp only [simplifyP, ivlPitch]
    rw [if_neg hd0]
  refine ⟨?_, ?_, ?_, rfl, rfl⟩
  · rw [hsimp]; rfl
  · exact ⟨_, hsimp⟩
  · rw [hsimp]
    simp only [fifthsOf, octvOf, decode]
    refine congrArg some ?_
    rcases hd with rfl | rfl <;> ring

theorem simplify_spec_witness :
    fifthsOf (simplifyP (Pitch.ivl 2 0 1)) = 2 ∧
    (∃ or, simplifyP (Pitch.ivl 2 0 1) = Pitch.ivl 2 or 1) ∧
    (decode (Pitch.note (1 * fifthsOf (simplifyP (Pitch.ivl 2 0 1)))
        (1 * octvOf (simplifyP (Pitch.ivl 2 0 1))))).oct = some 0 ∧
    simplifyStr "M9" = some "2M" ∧
    simplifyAscStr "-M2" = some "7m" :=
  simplify_spec 2 0 1 (Or.inl rfl)

/-! ### C10 -/

/-- C10: for every pitch — class, note, or interval — `chroma` computes
`7 * fifths - 12 * floor(7 * fifths / 12)`, which always lies in 0..11;
the enharmonically equivalent `'C#4'` and `'Db4'` both get chroma 1. -/
theorem chroma_range (p : Pitch) :
    chromaP p = 7 * fifthsOf p - 12 * (7 * fifthsOf p / 12) ∧
    0 ≤ chromaP p ∧ chromaP p < 12 ∧
    chromaJS (JSVal.str "C#4") = some 1 ∧
    chromaJS (JSVal.str "Db4") = some 1 := by
  refine ⟨?_, ?_, ?_, rfl, rfl⟩
  · unfold chromaP fOcts
    rw [show fifthsOf p * 7 = 7 * fifthsOf p by ring]
  · unfold chromaP fOcts
    generalize fifthsOf p = x
    omega
  · unfold chromaP fOcts
    generalize fifthsOf p = x
    omega

end Tonal
